import Mathlib

/-!
Shallow embedding of the gambledashboard backend (bookmaker registry,
odds row aggregation, history projection, upstream table formatting)
and proofs of the specification claims about it.

Python strings are modelled as Lean `String` (a list of characters);
`str.lower()` is modelled per-character with `Char.toLower`, which covers
the basic latin range actually used by the registry tables.
Database `Decimal` cells are modelled as `Option ℚ` (`none` = SQL NULL);
`float(d)` is modelled as the exact rational value, since no claim
depends on floating-point rounding.
-/

namespace GambleDash

/-! ### Python string primitives -/

/-- The whitespace characters stripped by Python `str.strip()` (ASCII range). -/
def pyWS (c : Char) : Bool :=
  c == ' ' || c == '\t' || c == '\n' || c == '\r' || c == '\x0b' || c == '\x0c'

/-- Python `str.strip()` on the character list: drop whitespace from both ends. -/
def listStrip (l : List Char) : List Char :=
  ((l.dropWhile pyWS).reverse.dropWhile pyWS).reverse

/-- Python `s.strip()`. -/
def pyStrip (s : String) : String := ⟨listStrip s.data⟩

/-- Python `s.lower()` (per character, basic latin). -/
def pyLower (s : String) : String := ⟨s.data.map Char.toLower⟩

/-- Python `a or b` where `a` is a `str`: `b` if `a` is empty, else `a`. -/
def pyOrStr (a b : String) : String := if a = "" then b else a

/-- Python `a or b` where `a` is an `Optional[str]` and `b` a `str`:
falls through when `a` is `None` or the empty string. -/
def pyOrOptStr (a : Option String) (b : String) : String :=
  match a with
  | none => b
  | some s => if s = "" then b else s

/-! ### Bookmaker registry (`bookmaker.py`) -/

def BOOKMAKER_URLS : List (String × String) := [
  ("betright",      "https://www.betright.com.au/"),
  ("betfair_ex_au", "https://www.betfair.com.au/exchange/"),
  ("betr",          "https://www.betr.com.au/"),
  ("boombet",       "https://www.boombet.com.au/"),
  ("ladbrokes",     "https://www.ladbrokes.com.au/"),
  ("neds",          "https://www.neds.com.au/"),
  ("playup",        "https://www.playup.com.au/"),
  ("pointsbetau",   "https://pointsbet.com.au/"),
  ("sportsbet",     "https://www.sportsbet.com.au/"),
  ("tab",           "https://www.tab.com.au/"),
  ("tabtouch",      "https://www.tabtouch.com.au/"),
  ("unibet",        "https://www.unibet.com.au/")
]

def ALIASES : List (String × String) := [
  ("bet_right",    "betright"),
  ("betfair",      "betfair_ex_au"),
  ("pointsbet",    "pointsbetau"),
  ("sportsbet_au", "sportsbet"),
  ("unibet_au",    "unibet"),
  ("tab_au",       "tab")
]

def CANONICAL_NAME : List (String × String) := [
  ("betfair_ex_au", "Betfair"),
  ("pointsbetau",   "PointsBet (AU)"),
  ("sportsbet",     "SportsBet"),
  ("tab",           "TAB")
]

/-- `normalize_key` from `bookmaker.py`: empty/absent input yields `""`;
otherwise strip, lowercase and resolve through the alias table. -/
def normalize_key : Option String → String
  | none => ""
  | some s =>
    if s = "" then ""
    else
      let k := pyLower (pyStrip s)
      (ALIASES.lookup k).getD k

structure BookmakerMeta where
  key : String
  name : String
  url : Option String
  deriving DecidableEq, Repr

/-- `get_bookmaker_meta` from `bookmaker.py`:
`name = CANONICAL_NAME.get(nk) or title or (key or "")`,
`key = nk or (key or "")`, `url = BOOKMAKER_URLS.get(nk)`. -/
def get_bookmaker_meta (key : Option String) (title : Option String) : BookmakerMeta :=
  let nk := normalize_key key
  let url := BOOKMAKER_URLS.lookup nk
  let name := pyOrOptStr (CANONICAL_NAME.lookup nk) (pyOrOptStr title (pyOrOptStr key ""))
  { key := pyOrStr nk (pyOrOptStr key ""), name := name, url := url }

example : normalize_key (some "  Bet_Right ") = "betright" := by decide
example : normalize_key (some "TAB_au") = "tab" := by decide
example : get_bookmaker_meta (some "tab") none =
    ⟨"tab", "TAB", some "https://www.tab.com.au/"⟩ := by decide
example : get_bookmaker_meta (some "unknownkey") (some "Some Title") =
    ⟨"unknownkey", "Some Title", none⟩ := by decide
example : (get_bookmaker_meta none (some "Some Title")).key = "" := by decide

/-! ### Character-level lemmas for idempotence of normalization -/

theorem toNat_ofNat_valid (n : Nat) (h : n.isValidChar) : (Char.ofNat n).toNat = n := by
  simp [Char.ofNat, h, Char.ofNatAux, Char.toNat, UInt32.toNat]

theorem toLower_toNat_of_upper (c : Char) (h : 65 ≤ c.toNat ∧ c.toNat ≤ 90) :
    c.toLower.toNat = c.toNat + 32 := by
  have hv : (c.toNat + 32).isValidChar := Or.inl (by omega)
  simp only [Char.toLower]
  rw [if_pos (by exact ⟨h.1, h.2⟩)]
  exact toNat_ofNat_valid _ hv

theorem toLower_eq_of_not_upper (c : Char) (h : ¬(65 ≤ c.toNat ∧ c.toNat ≤ 90)) :
    c.toLower = c := by
  simp only [Char.toLower]
  rw [if_neg (by exact h)]

theorem toLower_toLower (c : Char) : c.toLower.toLower = c.toLower := by
  by_cases h : 65 ≤ c.toNat ∧ c.toNat ≤ 90
  · have ht := toLower_toNat_of_upper c h
    exact toLower_eq_of_not_upper _ (by omega)
  · rw [toLower_eq_of_not_upper c h, toLower_eq_of_not_upper c h]

theorem pyWS_false_of_big (c : Char) (h : 33 ≤ c.toNat) : pyWS c = false := by
  simp only [pyWS, Bool.or_eq_false_iff, beq_eq_false_iff_ne, ne_eq]
  refine ⟨⟨⟨⟨⟨?_, ?_⟩, ?_⟩, ?_⟩, ?_⟩, ?_⟩ <;>
    · intro e; subst e; exact absurd h (by decide)

theorem pyWS_toLower (c : Char) : pyWS c.toLower = pyWS c := by
  by_cases h : 65 ≤ c.toNat ∧ c.toNat ≤ 90
  · have h1 : pyWS c = false := pyWS_false_of_big c (by omega)
    have h2 : pyWS c.toLower = false :=
      pyWS_false_of_big _ (by rw [toLower_toNat_of_upper c h]; omega)
    rw [h1, h2]
  · rw [toLower_eq_of_not_upper c h]

/-! ### List-level lemmas: strip and lower commute, both idempotent -/

theorem dropWhile_twice (p : α → Bool) :
    ∀ l : List α, (l.dropWhile p).dropWhile p = l.dropWhile p
  | [] => rfl
  | a :: l => by
    by_cases h : p a
    · simp [List.dropWhile_cons, h, dropWhile_twice p l]
    · simp [List.dropWhile_cons, h]

theorem dropWhile_eq_self_of_prefix (p : α → Bool) (l v : List α)
    (h : v <+: l.dropWhile p) : v.dropWhile p = v := by
  cases v with
  | nil => rfl
  | cons a t =>
    obtain ⟨r, hr⟩ := h
    have hhead : (l.dropWhile p).head? = some a := by
      rw [← hr]; rfl
    have hpa : p a = false := by
      have := List.head?_dropWhile_not p l
      rw [hhead] at this
      exact this
    simp [List.dropWhile_cons, hpa]

theorem listStrip_prefix_dropWhile (l : List Char) :
    listStrip l <+: l.dropWhile pyWS := by
  unfold listStrip
  have h1 : ((l.dropWhile pyWS).reverse.dropWhile pyWS) <:+ (l.dropWhile pyWS).reverse :=
    List.dropWhile_suffix pyWS
  have h2 := List.reverse_prefix.mpr h1
  simpa using h2

theorem listStrip_idem (l : List Char) : listStrip (listStrip l) = listStrip l := by
  have hA : (listStrip l).dropWhile pyWS = listStrip l :=
    dropWhile_eq_self_of_prefix pyWS l _ (listStrip_prefix_dropWhile l)
  have hvr : (listStrip l).reverse = (l.dropWhile pyWS).reverse.dropWhile pyWS := by
    simp [listStrip]
  have hrev : (listStrip l).reverse.dropWhile pyWS = (listStrip l).reverse := by
    rw [hvr, dropWhile_twice]
  calc listStrip (listStrip l)
      = (((listStrip l).dropWhile pyWS).reverse.dropWhile pyWS).reverse := rfl
    _ = ((listStrip l).reverse.dropWhile pyWS).reverse := by rw [hA]
    _ = (listStrip l).reverse.reverse := by rw [hrev]
    _ = listStrip l := List.reverse_reverse _

theorem listStrip_map_toLower (l : List Char) :
    listStrip (l.map Char.toLower) = (listStrip l).map Char.toLower := by
  have hws : (pyWS ∘ Char.toLower) = pyWS := funext pyWS_toLower
  unfold listStrip
  rw [List.dropWhile_map, hws, ← List.map_reverse, List.dropWhile_map, hws, ← List.map_reverse]

theorem map_toLower_idem (l : List Char) :
    (l.map Char.toLower).map Char.toLower = l.map Char.toLower := by
  rw [List.map_map]
  exact List.map_congr_left fun c _ => toLower_toLower c

/-- The strip-then-lower core of `normalize_key`. -/
def normCore (s : String) : String := pyLower (pyStrip s)

theorem normCore_idem (s : String) : normCore (normCore s) = normCore s := by
  cases s with
  | mk data =>
    simp only [normCore, pyLower, pyStrip, listStrip_map_toLower, map_toLower_idem,
      listStrip_idem]

/-! ### Normalization: idempotence and alias resolution -/

theorem mem_of_lookup_eq_some {l : List (String × String)} {k b : String}
    (h : l.lookup k = some b) : (k, b) ∈ l := by
  obtain ⟨l₁, l₂, rfl, -⟩ := List.lookup_eq_some_iff.mp h
  simp

theorem normalize_key_eq_of_ne (s : String) (hs : s ≠ "") :
    normalize_key (some s) = (ALIASES.lookup (normCore s)).getD (normCore s) := by
  simp [normalize_key, hs, normCore]

theorem normalize_key_alias_value (p : String × String) (hp : p ∈ ALIASES) :
    normalize_key (some p.2) = p.2 := by
  fin_cases hp <;> decide

theorem normalize_key_idem (k : Option String) :
    normalize_key (some (normalize_key k)) = normalize_key k := by
  cases k with
  | none => rfl
  | some s =>
    by_cases hs : s = ""
    · subst hs; rfl
    · rw [normalize_key_eq_of_ne s hs]
      cases h : ALIASES.lookup (normCore s) with
      | none =>
        simp only [Option.getD_none]
        by_cases hr : normCore s = ""
        · rw [hr]; rfl
        · rw [normalize_key_eq_of_ne _ hr, normCore_idem, h, Option.getD_none]
      | some v =>
        simp only [Option.getD_some]
        exact normalize_key_alias_value _ (mem_of_lookup_eq_some h)

/-- C5: `normalize_key` is total over all string inputs (absent/empty input
yields `""`), idempotent on every input, and maps every alias in the fixed
alias table to the same result as its canonical key, which is a fixed point. -/
theorem normalize_key_total_idem_aliases :
    normalize_key none = "" ∧ normalize_key (some "") = "" ∧
    (∀ k : Option String, normalize_key (some (normalize_key k)) = normalize_key k) ∧
    (∀ p ∈ ALIASES,
      normalize_key (some p.1) = normalize_key (some p.2) ∧
        normalize_key (some p.2) = p.2) := by
  refine ⟨rfl, rfl, normalize_key_idem, ?_⟩
  decide

/-- Witness for C5 at the alias pair `("tab_au", "tab")`. -/
theorem normalize_key_total_idem_aliases_witness :
    normalize_key (some "tab_au") = normalize_key (some "tab") ∧
      normalize_key (some "tab") = "tab" :=
  normalize_key_total_idem_aliases.2.2.2 ("tab_au", "tab") (by decide)

/-! ### Bookmaker meta: key field (C2) -/

/-- C2 counterexample: with an absent key and the non-empty title
`"Some Title"`, `get_bookmaker_meta` returns an empty `key` field, refuting
the claim that a non-empty title alone forces a non-empty key. -/
theorem get_bookmaker_meta_key_counterexample :
    (get_bookmaker_meta none (some "Some Title")).key = "" ∧ "Some Title" ≠ "" :=
  ⟨by decide, by decide⟩

/-- C2 (amended): the `key` field of `get_bookmaker_meta` is non-empty
whenever the input key is non-empty; the title does not contribute to it. -/
theorem get_bookmaker_meta_key_nonempty (k : String) (t : Option String) (hk : k ≠ "") :
    (get_bookmaker_meta (some k) t).key ≠ "" := by
  simp only [get_bookmaker_meta, pyOrStr, pyOrOptStr]
  split
  · simp [hk]
  · next h => exact h

/-- Witness for C2's amended theorem at key `"tab"`. -/
theorem get_bookmaker_meta_key_nonempty_witness :
    (get_bookmaker_meta (some "tab") none).key ≠ "" :=
  get_bookmaker_meta_key_nonempty "tab" none (by decide)

/-! ### Bookmaker meta: display name and URL resolution (C6) -/

theorem canonical_value_ne_empty (p : String × String) (hp : p ∈ CANONICAL_NAME) :
    p.2 ≠ "" := by
  fin_cases hp <;> decide

/-- C6: display-name resolution falls back from the canonical name of the
normalized key, to the provider title, to the raw input key, to `""`
(an empty title counts as absent, mirroring Python truthiness); the URL is
exactly the known-URL table entry for the normalized key and is never
invented; the two concrete examples of the spec hold. -/
theorem get_bookmaker_meta_resolution :
    (∀ key title n, CANONICAL_NAME.lookup (normalize_key key) = some n →
        (get_bookmaker_meta key title).name = n) ∧
    (∀ key title t, CANONICAL_NAME.lookup (normalize_key key) = none →
        title = some t → t ≠ "" → (get_bookmaker_meta key title).name = t) ∧
    (∀ key title k0, CANONICAL_NAME.lookup (normalize_key key) = none →
        (title = none ∨ title = some "") → key = some k0 →
        (get_bookmaker_meta key title).name = k0) ∧
    (∀ title, CANONICAL_NAME.lookup (normalize_key none) = none →
        (title = none ∨ title = some "") →
        (get_bookmaker_meta none title).name = "") ∧
    (∀ key title, (get_bookmaker_meta key title).url =
        BOOKMAKER_URLS.lookup (normalize_key key)) ∧
    (∀ key title u, (get_bookmaker_meta key title).url = some u →
        (normalize_key key, u) ∈ BOOKMAKER_URLS) ∧
    get_bookmaker_meta (some "unknownkey") (some "Some Title") =
      ⟨"unknownkey", "Some Title", none⟩ ∧
    get_bookmaker_meta (some "tab") none =
      ⟨"tab", "TAB", some "https://www.tab.com.au/"⟩ := by
  refine ⟨?_, ?_, ?_, ?_, ?_, ?_, by decide, by decide⟩
  · intro key title n h
    have hn : n ≠ "" := canonical_value_ne_empty _ (mem_of_lookup_eq_some h)
    simp [get_bookmaker_meta, h, pyOrOptStr, hn]
  · intro key title t h ht htne
    subst ht
    simp [get_bookmaker_meta, h, pyOrOptStr, htne]
  · intro key title k0 h ht hk
    subst hk
    by_cases hk0 : k0 = ""
    · subst hk0
      rcases ht with rfl | rfl <;> decide
    · rcases ht with rfl | rfl <;> simp [get_bookmaker_meta, h, pyOrOptStr, hk0]
  · intro title h ht
    rcases ht with rfl | rfl <;> simp [get_bookmaker_meta, h, pyOrOptStr]
  · intro key title
    rfl
  · intro key title u h
    exact mem_of_lookup_eq_some h

/-- Witness for C6 at the spec's two examples (via the canonical-name and
fallback-title branches). -/
theorem get_bookmaker_meta_resolution_witness :
    (get_bookmaker_meta (some "tab") none).name = "TAB" ∧
      (get_bookmaker_meta (some "unknownkey") (some "Some Title")).name = "Some Title" :=
  ⟨get_bookmaker_meta_resolution.1 (some "tab") none "TAB" (by decide),
    get_bookmaker_meta_resolution.2.1 (some "unknownkey") (some "Some Title") "Some Title"
      (by decide) rfl (by decide)⟩

/-! ### Snapshot rows and aggregation (`main.py`)

The SQL store is an external collaborator: the embedding takes the fetched
snapshot rows as input lists and models the in-code transformations.
Timestamps are modelled as integers, `GETDATE()` as an explicit `now`. -/

structure Row where
  event_id : String
  sport_key : String
  home_team : Option String
  away_team : Option String
  commence_time : Int
  bookmaker_key : String
  bookmaker_title : Option String
  snapshot_at : Int
  home_h2h_price : Option ℚ
  away_h2h_price : Option ℚ
  home_spread_price : Option ℚ
  home_spread_point : Option ℚ
  away_spread_price : Option ℚ
  away_spread_point : Option ℚ
  over_total_price : Option ℚ
  over_total_point : Option ℚ
  under_total_price : Option ℚ
  under_total_point : Option ℚ
  deriving DecidableEq, Repr

/-- Python `float(x) if x else None` on a nullable `Decimal` cell:
NULL and the zero sentinel become absent, everything else is kept
(`Decimal` is falsy exactly when it equals zero). -/
def pyFloatOpt : Option ℚ → Option ℚ
  | none => none
  | some d => if d = 0 then none else some d

structure PricePoint where
  price : Option ℚ
  point : Option ℚ
  deriving DecidableEq, Repr

structure BookmakerOdds where
  bookmaker_key : String
  bookmaker_title : Option String
  last_update : Int
  h2h_home : Option ℚ
  h2h_away : Option ℚ
  spreads_home : PricePoint
  spreads_away : PricePoint
  totals_over : PricePoint
  totals_under : PricePoint
  deriving DecidableEq, Repr

/-- The `BookmakerOdds(...)` construction shared by the event-list and
event-detail endpoints (`main.py` lines 213–241 and 324–352). -/
def mkBookmakerOdds (r : Row) : BookmakerOdds := {
  bookmaker_key := r.bookmaker_key
  bookmaker_title := r.bookmaker_title
  last_update := r.snapshot_at
  h2h_home := pyFloatOpt r.home_h2h_price
  h2h_away := pyFloatOpt r.away_h2h_price
  spreads_home := ⟨pyFloatOpt r.home_spread_price, pyFloatOpt r.home_spread_point⟩
  spreads_away := ⟨pyFloatOpt r.away_spread_price, pyFloatOpt r.away_spread_point⟩
  totals_over := ⟨pyFloatOpt r.over_total_price, pyFloatOpt r.over_total_point⟩
  totals_under := ⟨pyFloatOpt r.under_total_price, pyFloatOpt r.under_total_point⟩
}

structure Event where
  event_id : String
  sport_key : String
  home_team : Option String
  away_team : Option String
  commence_time : Int
  bookmakers : List BookmakerOdds
  is_live : Bool
  deriving DecidableEq, Repr

/-- One step of the `events_dict` grouping loop in `get_sport_events`:
a Python dict preserves insertion order, so the accumulator is an
insertion-ordered list keyed by event id; the first-seen row seeds the
event's identity fields, later rows only append their bookmaker odds. -/
def addEventRow (now : Int) (sk : String) (acc : List Event) (r : Row) : List Event :=
  if acc.any (fun e => e.event_id == r.event_id) then
    acc.map (fun e =>
      if e.event_id == r.event_id then
        { e with bookmakers := e.bookmakers ++ [mkBookmakerOdds r] }
      else e)
  else
    acc ++ [{
      event_id := r.event_id
      sport_key := sk
      home_team := r.home_team
      away_team := r.away_team
      commence_time := r.commence_time
      bookmakers := [mkBookmakerOdds r]
      is_live := decide (r.commence_time ≤ now) }]

/-- `get_sport_events` on the fetched latest-snapshot rows: group into
events, then sort by commence time (Python `list.sort` is a stable sort,
modelled by insertion sort over the same key). -/
def get_sport_events (sk : String) (now : Int) (rows : List Row) : List Event :=
  List.insertionSort (fun a b => a.commence_time ≤ b.commence_time)
    (rows.foldl (addEventRow now sk) [])

structure CmpStats where
  best : ℚ
  worst : ℚ
  average : ℚ
  deriving DecidableEq, Repr

/-- The two optional keys of the `odds_comparison` dict; `none` models the
key being omitted from the dict. -/
structure OddsComparison where
  h2h_home : Option CmpStats
  h2h_away : Option CmpStats
  deriving DecidableEq, Repr

/-- `{"best": max(prices), "worst": min(prices), "average": sum/len}` guarded
by `if prices:`; Python `max`/`min` fold over the list, the mean is exact. -/
def mkCmp : List ℚ → Option CmpStats
  | [] => none
  | x :: xs => some {
      best := xs.foldl max x
      worst := xs.foldl min x
      average := (x :: xs).sum / (x :: xs).length }

/-- `h2h_home_prices`: prices appended when the raw cell is truthy. -/
def h2h_home_prices (rows : List Row) : List ℚ :=
  rows.filterMap (fun r => pyFloatOpt r.home_h2h_price)

def h2h_away_prices (rows : List Row) : List ℚ :=
  rows.filterMap (fun r => pyFloatOpt r.away_h2h_price)

structure EventDetail where
  event_id : String
  sport_key : String
  home_team : Option String
  away_team : Option String
  commence_time : Int
  current_odds : List BookmakerOdds
  odds_comparison : OddsComparison
  deriving DecidableEq, Repr

/-- `get_event_detail` on the fetched latest-snapshot rows for the event:
404 when there are no rows, else identity fields from the first row,
one `BookmakerOdds` per row, and the h2h comparison stats. -/
def get_event_detail (event_id : String) (rows : List Row) : Except Nat EventDetail :=
  match rows with
  | [] => .error 404
  | first :: _ => .ok {
      event_id := event_id
      sport_key := first.sport_key
      home_team := first.home_team
      away_team := first.away_team
      commence_time := first.commence_time
      current_odds := rows.map mkBookmakerOdds
      odds_comparison := ⟨mkCmp (h2h_home_prices rows), mkCmp (h2h_away_prices rows)⟩ }

inductive MarketType
  | h2h
  | spreads
  | totals
  deriving DecidableEq, Repr

structure OddsHistoryPoint where
  timestamp : Int
  bookmaker : String
  market_type : MarketType
  values : List (String × Option ℚ)
  deriving DecidableEq, Repr

structure OddsHistory where
  event_id : String
  home_team : Option String
  away_team : Option String
  market_type : MarketType
  bookmaker : Option String
  history : List OddsHistoryPoint
  deriving DecidableEq, Repr

/-- One `OddsHistoryPoint` per history row; the `values` dict shape depends
on the requested market type. -/
def mkHistoryPoint (mt : MarketType) (r : Row) : OddsHistoryPoint := {
  timestamp := r.snapshot_at
  bookmaker := r.bookmaker_key
  market_type := mt
  values := match mt with
    | .h2h =>
      [("home", pyFloatOpt r.home_h2h_price), ("away", pyFloatOpt r.away_h2h_price)]
    | .spreads =>
      [("home_price", pyFloatOpt r.home_spread_price),
       ("home_point", pyFloatOpt r.home_spread_point),
       ("away_price", pyFloatOpt r.away_spread_price),
       ("away_point", pyFloatOpt r.away_spread_point)]
    | .totals =>
      [("over_price", pyFloatOpt r.over_total_price),
       ("over_point", pyFloatOpt r.over_total_point),
       ("under_price", pyFloatOpt r.under_total_price),
       ("under_point", pyFloatOpt r.under_total_point)] }

/-- The SQL `ORDER BY snapshot_at ASC, bookmaker_key` of the history query. -/
def historyLe (a b : Row) : Prop :=
  a.snapshot_at < b.snapshot_at ∨
    (a.snapshot_at = b.snapshot_at ∧ a.bookmaker_key ≤ b.bookmaker_key)

instance : DecidableRel historyLe := fun a b => by
  unfold historyLe; infer_instance

/-- The `WHERE` clause of the windowed history query: event id match,
`snapshot_at >= DATEADD(hour, -hours, GETDATE())`, optional bookmaker. -/
def windowFilter (db : List Row) (event_id : String) (bookmaker : Option String)
    (hours now : Int) : List Row :=
  db.filter (fun r =>
    r.event_id == event_id && decide (now - hours ≤ r.snapshot_at) &&
      (match bookmaker with | none => true | some b => r.bookmaker_key == b))

/-- `get_event_history` over the whole snapshot table for this model:
the unwindowed `TOP 1` info query decides existence (404), the windowed
query feeds the history list after the SQL ordering; an empty windowed
result is a successful empty history. -/
def get_event_history (db : List Row) (event_id : String) (mt : MarketType)
    (bookmaker : Option String) (hours : Int) (now : Int) : Except Nat OddsHistory :=
  match db.find? (fun r => r.event_id == event_id) with
  | none => .error 404
  | some info =>
    if (windowFilter db event_id bookmaker hours now).isEmpty then
      .ok {
        event_id := event_id
        home_team := info.home_team
        away_team := info.away_team
        market_type := mt
        bookmaker := bookmaker
        history := [] }
    else
      .ok {
        event_id := event_id
        home_team := info.home_team
        away_team := info.away_team
        market_type := mt
        bookmaker := bookmaker
        history := (List.insertionSort historyLe
          (windowFilter db event_id bookmaker hours now)).map (mkHistoryPoint mt) }

/-! ### Zero-sentinel and comparison lemmas -/

theorem pyFloatOpt_ne_zero (v : Option ℚ) : pyFloatOpt v ≠ some 0 := by
  cases v with
  | none => simp [pyFloatOpt]
  | some d =>
    simp only [pyFloatOpt]
    split
    · simp
    · next h => simp [h]

theorem pyFloatOpt_absent (v : Option ℚ) (h : v = some 0 ∨ v = none) :
    pyFloatOpt v = none := by
  rcases h with rfl | rfl <;> rfl

theorem foldl_max_mem (xs : List ℚ) : ∀ x : ℚ, xs.foldl max x ∈ x :: xs := by
  induction xs with
  | nil => intro x; simp
  | cons a xs ih =>
    intro x
    simp only [List.foldl_cons]
    rcases List.mem_cons.mp (ih (max x a)) with h | h
    · rcases max_choice x a with hm | hm <;> rw [hm] at h ⊢ <;> simp [h]
    · simp [List.mem_cons_of_mem, h]

theorem le_foldl_max (xs : List ℚ) : ∀ x : ℚ, ∀ y ∈ x :: xs, y ≤ xs.foldl max x := by
  induction xs with
  | nil =>
    intro x y hy
    simp only [List.mem_singleton] at hy
    simp [hy]
  | cons a xs ih =>
    intro x y hy
    simp only [List.foldl_cons]
    rcases List.mem_cons.mp hy with rfl | hy2
    · exact le_trans (le_max_left y a) (ih (max y a) _ (List.mem_cons_self _ _))
    · rcases List.mem_cons.mp hy2 with rfl | hy3
      · exact le_trans (le_max_right x y) (ih (max x y) _ (List.mem_cons_self _ _))
      · exact ih (max x a) y (List.mem_cons_of_mem _ hy3)

theorem foldl_min_mem (xs : List ℚ) : ∀ x : ℚ, xs.foldl min x ∈ x :: xs := by
  induction xs with
  | nil => intro x; simp
  | cons a xs ih =>
    intro x
    simp only [List.foldl_cons]
    rcases List.mem_cons.mp (ih (min x a)) with h | h
    · rcases min_choice x a with hm | hm <;> rw [hm] at h ⊢ <;> simp [h]
    · simp [List.mem_cons_of_mem, h]

theorem foldl_min_le (xs : List ℚ) : ∀ x : ℚ, ∀ y ∈ x :: xs, xs.foldl min x ≤ y := by
  induction xs with
  | nil =>
    intro x y hy
    simp only [List.mem_singleton] at hy
    simp [hy]
  | cons a xs ih =>
    intro x y hy
    simp only [List.foldl_cons]
    rcases List.mem_cons.mp hy with rfl | hy2
    · exact le_trans (ih (min y a) _ (List.mem_cons_self _ _)) (min_le_left y a)
    · rcases List.mem_cons.mp hy2 with rfl | hy3
      · exact le_trans (ih (min x y) _ (List.mem_cons_self _ _)) (min_le_right x y)
      · exact ih (min x a) y (List.mem_cons_of_mem _ hy3)

theorem avg_le_of_forall_le (l : List ℚ) (b : ℚ) (hne : l ≠ [])
    (hb : ∀ x ∈ l, x ≤ b) : l.sum / l.length ≤ b := by
  have hlen : 0 < (l.length : ℚ) := by
    exact_mod_cast List.length_pos.mpr hne
  rw [div_le_iff₀ hlen]
  have := List.sum_le_card_nsmul l b hb
  simpa [nsmul_eq_mul, mul_comm] using this

theorem le_avg_of_forall_le (l : List ℚ) (b : ℚ) (hne : l ≠ [])
    (hb : ∀ x ∈ l, b ≤ x) : b ≤ l.sum / l.length := by
  have hlen : 0 < (l.length : ℚ) := by
    exact_mod_cast List.length_pos.mpr hne
  rw [le_div_iff₀ hlen]
  have := List.card_nsmul_le_sum l b hb
  simpa [nsmul_eq_mul, mul_comm] using this

/-- Full characterization of the comparison statistics on a non-empty list. -/
theorem mkCmp_spec (l : List ℚ) (c : CmpStats) (h : mkCmp l = some c) :
    c.best ∈ l ∧ (∀ x ∈ l, x ≤ c.best) ∧
    c.worst ∈ l ∧ (∀ x ∈ l, c.worst ≤ x) ∧
    c.average = l.sum / l.length ∧
    c.worst ≤ c.average ∧ c.average ≤ c.best := by
  match l with
  | [] => simp [mkCmp] at h
  | x :: xs =>
    simp only [mkCmp, Option.some.injEq] at h
    subst h
    have hne : x :: xs ≠ [] := by simp
    refine ⟨foldl_max_mem xs x, le_foldl_max xs x, foldl_min_mem xs x, foldl_min_le xs x,
      rfl, ?_, ?_⟩
    · exact le_avg_of_forall_le _ _ hne (foldl_min_le xs x)
    · exact avg_le_of_forall_le _ _ hne (le_foldl_max xs x)

/-- No price or point field of a constructed `BookmakerOdds` equals `0`. -/
def noZeroBO (b : BookmakerOdds) : Prop :=
  b.h2h_home ≠ some 0 ∧ b.h2h_away ≠ some 0 ∧
  b.spreads_home.price ≠ some 0 ∧ b.spreads_home.point ≠ some 0 ∧
  b.spreads_away.price ≠ some 0 ∧ b.spreads_away.point ≠ some 0 ∧
  b.totals_over.price ≠ some 0 ∧ b.totals_over.point ≠ some 0 ∧
  b.totals_under.price ≠ some 0 ∧ b.totals_under.point ≠ some 0

instance (b : BookmakerOdds) : Decidable (noZeroBO b) := by
  unfold noZeroBO; infer_instance

theorem noZeroBO_mk (r : Row) : noZeroBO (mkBookmakerOdds r) := by
  refine ⟨?_, ?_, ?_, ?_, ?_, ?_, ?_, ?_, ?_, ?_⟩ <;> exact pyFloatOpt_ne_zero _

theorem addEventRow_preserves (now : Int) (sk : String) (acc : List Event) (r : Row)
    (hacc : ∀ e ∈ acc, ∀ bo ∈ e.bookmakers, noZeroBO bo) :
    ∀ e ∈ addEventRow now sk acc r, ∀ bo ∈ e.bookmakers, noZeroBO bo := by
  intro e he bo hbo
  unfold addEventRow at he
  split at he
  · obtain ⟨e0, he0, rfl⟩ := List.mem_map.mp he
    split at hbo
    · rcases List.mem_append.mp hbo with h | h
      · exact hacc e0 he0 bo h
      · simp only [List.mem_singleton] at h
        subst h
        exact noZeroBO_mk r
    · exact hacc e0 he0 bo hbo
  · rcases List.mem_append.mp he with h | h
    · exact hacc e h bo hbo
    · simp only [List.mem_singleton] at h
      subst h
      simp only [List.mem_singleton] at hbo
      subst hbo
      exact noZeroBO_mk r

theorem foldl_addEventRow_noZero (now : Int) (sk : String) :
    ∀ (rows : List Row) (acc : List Event),
      (∀ e ∈ acc, ∀ bo ∈ e.bookmakers, noZeroBO bo) →
      ∀ e ∈ rows.foldl (addEventRow now sk) acc, ∀ bo ∈ e.bookmakers, noZeroBO bo
  | [], _, hacc => hacc
  | r :: rows, acc, hacc =>
    foldl_addEventRow_noZero now sk rows (addEventRow now sk acc r)
      (addEventRow_preserves now sk acc r hacc)

theorem historyPoint_values_ne_zero (mt : MarketType) (r : Row) :
    ∀ kv ∈ (mkHistoryPoint mt r).values, kv.2 ≠ some 0 := by
  intro kv hkv
  cases mt <;> simp only [mkHistoryPoint, List.mem_cons, List.mem_singleton,
    List.not_mem_nil, or_false] at hkv <;>
    rcases hkv with rfl | rfl | rfl | rfl <;> exact pyFloatOpt_ne_zero _
  -- the h2h case has only two value entries; the tactic handles all shapes

/-- C3: the zero/falsy "not offered" sentinel becomes absent, and no
price/point field of any output of the event-list, event-detail or history
operation carries the value `0`. -/
theorem zero_sentinel_never_surfaces :
    (∀ v : Option ℚ, (v = some 0 ∨ v = none) → pyFloatOpt v = none) ∧
    (∀ (sk : String) (now : Int) (rows : List Row),
      ∀ e ∈ get_sport_events sk now rows, ∀ bo ∈ e.bookmakers, noZeroBO bo) ∧
    (∀ (eid : String) (rows : List Row) (d : EventDetail),
      get_event_detail eid rows = .ok d → ∀ bo ∈ d.current_odds, noZeroBO bo) ∧
    (∀ (db : List Row) (eid : String) (mt : MarketType) (bk : Option String)
        (hours now : Int) (h : OddsHistory),
      get_event_history db eid mt bk hours now = .ok h →
      ∀ p ∈ h.history, ∀ kv ∈ p.values, kv.2 ≠ some 0) := by
  refine ⟨pyFloatOpt_absent, ?_, ?_, ?_⟩
  · intro sk now rows e he
    rw [get_sport_events, List.mem_insertionSort] at he
    exact foldl_addEventRow_noZero now sk rows [] (by simp) e he
  · intro eid rows d hd bo hbo
    match rows, hd with
    | first :: rest, hd =>
      simp only [get_event_detail, Except.ok.injEq] at hd
      subst hd
      obtain ⟨r, _, rfl⟩ := List.mem_map.mp hbo
      exact noZeroBO_mk r
  · intro db eid mt bk hours now h hh p hp kv hkv
    unfold get_event_history at hh
    split at hh
    · exact absurd hh (by simp)
    · split at hh <;> simp only [Except.ok.injEq] at hh <;> subst hh
      · simp at hp
      · obtain ⟨r, _, rfl⟩ := List.mem_map.mp hp
        exact historyPoint_values_ne_zero mt r kv hkv

/-- A snapshot row with all market cells NULL, used to instantiate witnesses. -/
def baseRow : Row := {
  event_id := "e1"
  sport_key := "aussierules_afl"
  home_team := some "Carlton"
  away_team := some "Essendon"
  commence_time := 100
  bookmaker_key := "tab"
  bookmaker_title := some "TAB"
  snapshot_at := 10
  home_h2h_price := none
  away_h2h_price := none
  home_spread_price := none
  home_spread_point := none
  away_spread_price := none
  away_spread_point := none
  over_total_price := none
  over_total_point := none
  under_total_price := none
  under_total_point := none }

/-- Witness for C3 at a concrete store containing a zero-price row. -/
theorem zero_sentinel_never_surfaces_witness :
    ∀ e ∈ get_sport_events "aussierules_afl" 0 [{ baseRow with home_h2h_price := some 0 }],
      ∀ bo ∈ e.bookmakers, noZeroBO bo :=
  zero_sentinel_never_surfaces.2.1 "aussierules_afl" 0
    [{ baseRow with home_h2h_price := some 0 }]

/-! ### C4 / C10: the odds comparison of the event-detail endpoint -/

/-- C4: per head-to-head side, the event-detail comparison is computed over
the non-absent prices collected across all bookmaker rows: a non-empty
collection yields `best = max`, `worst = min`, `average = sum/length`
(as characterized by membership and bound properties of max/min), an empty
collection omits the side's key entirely (`none` models the omitted key). -/
theorem get_event_detail_oddsComparison (eid : String) (rows : List Row)
    (d : EventDetail) (hrows : rows ≠ [])
    (hd : get_event_detail eid rows = .ok d) :
    (h2h_home_prices rows = [] → d.odds_comparison.h2h_home = none) ∧
    (h2h_home_prices rows ≠ [] → ∃ c, d.odds_comparison.h2h_home = some c ∧
      c.best ∈ h2h_home_prices rows ∧ (∀ x ∈ h2h_home_prices rows, x ≤ c.best) ∧
      c.worst ∈ h2h_home_prices rows ∧ (∀ x ∈ h2h_home_prices rows, c.worst ≤ x) ∧
      c.average = (h2h_home_prices rows).sum / (h2h_home_prices rows).length) ∧
    (h2h_away_prices rows = [] → d.odds_comparison.h2h_away = none) ∧
    (h2h_away_prices rows ≠ [] → ∃ c, d.odds_comparison.h2h_away = some c ∧
      c.best ∈ h2h_away_prices rows ∧ (∀ x ∈ h2h_away_prices rows, x ≤ c.best) ∧
      c.worst ∈ h2h_away_prices rows ∧ (∀ x ∈ h2h_away_prices rows, c.worst ≤ x) ∧
      c.average = (h2h_away_prices rows).sum / (h2h_away_prices rows).length) := by
  match rows, hd with
  | [], hd => simp [get_event_detail] at hd
  | first :: rest, hd =>
    simp only [get_event_detail, Except.ok.injEq] at hd
    subst hd
    refine ⟨?_, ?_, ?_, ?_⟩
    · intro h
      show mkCmp (h2h_home_prices (first :: rest)) = none
      rw [h]
      rfl
    · intro h
      rcases hc : mkCmp (h2h_home_prices (first :: rest)) with _ | c
      · cases hl : h2h_home_prices (first :: rest) with
        | nil => exact absurd hl h
        | cons x xs => rw [hl] at hc; simp [mkCmp] at hc
      · obtain ⟨hb1, hb2, hw1, hw2, hav, -, -⟩ := mkCmp_spec _ _ hc
        exact ⟨c, rfl, hb1, hb2, hw1, hw2, hav⟩
    · intro h
      show mkCmp (h2h_away_prices (first :: rest)) = none
      rw [h]
      rfl
    · intro h
      rcases hc : mkCmp (h2h_away_prices (first :: rest)) with _ | c
      · cases hl : h2h_away_prices (first :: rest) with
        | nil => exact absurd hl h
        | cons x xs => rw [hl] at hc; simp [mkCmp] at hc
      · obtain ⟨hb1, hb2, hw1, hw2, hav, -, -⟩ := mkCmp_spec _ _ hc
        exact ⟨c, rfl, hb1, hb2, hw1, hw2, hav⟩

/-- The spec's comparison example: bookmakers a (home 2.10), b (home 1.95),
c (home absent), all away prices absent. -/
def exRows : List Row := [
  { baseRow with bookmaker_key := "a", home_h2h_price := some (21/10) },
  { baseRow with bookmaker_key := "b", home_h2h_price := some (39/20) },
  { baseRow with bookmaker_key := "c" } ]

/-- The event detail computed from `exRows` (definitionally the endpoint's
result for these rows). -/
def exDetail : EventDetail := {
  event_id := "e1"
  sport_key := "aussierules_afl"
  home_team := some "Carlton"
  away_team := some "Essendon"
  commence_time := 100
  current_odds := exRows.map mkBookmakerOdds
  odds_comparison := ⟨mkCmp (h2h_home_prices exRows), mkCmp (h2h_away_prices exRows)⟩ }

/-- Evaluation of the comparison statistics at the spec's example. -/
theorem exCmp_home_eval :
    mkCmp (h2h_home_prices exRows) = some ⟨21/10, 39/20, 81/40⟩ := by
  have hlist : h2h_home_prices exRows = [21/10, 39/20] := by
    norm_num [h2h_home_prices, exRows, baseRow, pyFloatOpt,
      List.filterMap_cons, List.filterMap_nil]
  rw [hlist]
  simp only [mkCmp, List.foldl_cons, List.foldl_nil, List.sum_cons, List.sum_nil,
    List.length_cons, List.length_nil, Option.some.injEq, CmpStats.mk.injEq]
  norm_num [max_def, min_def]

/-- Witness for C4 at the spec's example: home side `{2.10, 1.95, 2.025}`,
away side omitted. -/
theorem get_event_detail_oddsComparison_witness :
    exDetail.odds_comparison.h2h_away = none ∧
      exDetail.odds_comparison.h2h_home = some ⟨21/10, 39/20, 81/40⟩ :=
  ⟨(get_event_detail_oddsComparison "e1" exRows exDetail (by simp [exRows])
      rfl).2.2.1 rfl,
    exCmp_home_eval⟩

/-- C10: whenever a head-to-head side is present in the event-detail
comparison, `worst ≤ average ≤ best` and both `best` and `worst` are
elements of the collected price list for that side. -/
theorem odds_comparison_bounds (eid : String) (rows : List Row) (d : EventDetail)
    (c : CmpStats) (hd : get_event_detail eid rows = .ok d) :
    (d.odds_comparison.h2h_home = some c →
      c.worst ≤ c.average ∧ c.average ≤ c.best ∧
      c.best ∈ h2h_home_prices rows ∧ c.worst ∈ h2h_home_prices rows) ∧
    (d.odds_comparison.h2h_away = some c →
      c.worst ≤ c.average ∧ c.average ≤ c.best ∧
      c.best ∈ h2h_away_prices rows ∧ c.worst ∈ h2h_away_prices rows) := by
  match rows, hd with
  | [], hd => simp [get_event_detail] at hd
  | first :: rest, hd =>
    simp only [get_event_detail, Except.ok.injEq] at hd
    subst hd
    constructor <;> intro hc <;>
      obtain ⟨hb1, -, hw1, -, -, hwa, hab⟩ := mkCmp_spec _ _ hc <;>
      exact ⟨hwa, hab, hb1, hw1⟩

/-- Witness for C10 at the example detail. -/
theorem odds_comparison_bounds_witness :
    (39 : ℚ)/20 ≤ 81/40 ∧ (81 : ℚ)/40 ≤ 21/10 ∧
      (21 : ℚ)/10 ∈ h2h_home_prices exRows ∧ (39 : ℚ)/20 ∈ h2h_home_prices exRows :=
  (odds_comparison_bounds "e1" exRows exDetail ⟨21/10, 39/20, 81/40⟩ rfl).1
    exCmp_home_eval

/-! ### C7: history — not-found versus empty window -/

/-- C7: with no rows at all for the event id the history endpoint signals
404; with rows present but none inside the look-back window it succeeds
with an empty history list. -/
theorem history_notfound_vs_empty (db : List Row) (eid : String) (mt : MarketType)
    (hours now : Int) :
    ((∀ r ∈ db, r.event_id ≠ eid) →
      get_event_history db eid mt none hours now = .error 404) ∧
    ((∃ r ∈ db, r.event_id = eid) →
      (∀ r ∈ db, r.event_id = eid → r.snapshot_at < now - hours) →
      ∃ h, get_event_history db eid mt none hours now = .ok h ∧ h.history = []) := by
  constructor
  · intro hno
    have hfind : db.find? (fun r => r.event_id == eid) = none := by
      rw [List.find?_eq_none]
      intro r hr
      simpa using hno r hr
    simp [get_event_history, hfind]
  · intro hex hwin
    obtain ⟨r0, hr0, hr0e⟩ := hex
    have hsome : (db.find? (fun r => r.event_id == eid)).isSome :=
      List.find?_isSome.mpr ⟨r0, hr0, by simpa using hr0e⟩
    obtain ⟨info, hinfo⟩ := Option.isSome_iff_exists.mp hsome
    have hfilter : windowFilter db eid none hours now = [] := by
      rw [windowFilter, List.filter_eq_nil_iff]
      intro r hr hcontra
      simp only [Bool.and_eq_true, beq_iff_eq, decide_eq_true_eq] at hcontra
      obtain ⟨⟨he, hge⟩, -⟩ := hcontra
      have := hwin r hr he
      omega
    simp only [get_event_history, hinfo, hfilter, List.isEmpty_nil, if_true]
    exact ⟨_, rfl, rfl⟩

/-- Witness for C7: a one-row store; unknown id gives 404, known id with an
out-of-window snapshot gives a successful empty history. -/
theorem history_notfound_vs_empty_witness :
    get_event_history [baseRow] "zz" MarketType.h2h none 1 100 = .error 404 ∧
      (∃ h, get_event_history [baseRow] "e1" MarketType.h2h none 1 100 = .ok h ∧
        h.history = []) :=
  ⟨(history_notfound_vs_empty [baseRow] "zz" MarketType.h2h 1 100).1 (by decide),
    (history_notfound_vs_empty [baseRow] "e1" MarketType.h2h 1 100).2
      (by decide) (by decide)⟩

/-! ### Dynamic Python/JSON values for the odds_table route
(`routes_odds_table.py`)

The upstream response's parsed JSON is a dynamic value; `PyVal` models it.
Operations that raise in Python (`.get` on a non-dict, iteration over a
non-iterable, bad indexing, `in` on a non-container) return `Except Unit`;
an uncaught error corresponds to the request failing with a 500.
Numbers are rationals and their textual rendering is a stand-in — no claim
depends on the exact float repr. -/

inductive PyVal
  | none
  | bool (b : Bool)
  | num (q : ℚ)
  | str (s : String)
  | list (xs : List PyVal)
  | dict (kvs : List (String × PyVal))

/-- Python truthiness. -/
def pyTruthy : PyVal → Bool
  | .none => false
  | .bool b => b
  | .num q => decide (q ≠ 0)
  | .str s => decide (s ≠ "")
  | .list xs => !xs.isEmpty
  | .dict kvs => !kvs.isEmpty

/-- Python `a or b` on dynamic values. -/
def pyOr (a b : PyVal) : PyVal := if pyTruthy a then a else b

def PyVal.isDict : PyVal → Bool
  | .dict _ => true
  | _ => false

/-- `m.get(key, default)`: raises (`AttributeError`) unless `m` is a dict. -/
def pyGet (m : PyVal) (key : String) (default : PyVal) : Except Unit PyVal :=
  match m with
  | .dict kvs => .ok ((kvs.lookup key).getD default)
  | _ => .error ()

/-- `key in o` for a string key: key containment on dicts, membership on
lists, substring test on strings; `TypeError` otherwise. -/
def pyInStr (needle : String) : PyVal → Except Unit Bool
  | .dict kvs => .ok (kvs.any (fun kv => kv.1 == needle))
  | .list xs => .ok (xs.any (fun v => match v with | .str s => s == needle | _ => false))
  | .str s => .ok (decide (needle.data <:+: s.data))
  | _ => .error ()

/-- `o[key]` for a string key: dict lookup (`KeyError` when missing),
`TypeError` on any other value. -/
def pyIndexStr (key : String) : PyVal → Except Unit PyVal
  | .dict kvs =>
    match kvs.lookup key with
    | some v => .ok v
    | Option.none => .error ()
  | _ => .error ()

/-- `for x in v`: list elements, string characters, dict keys;
`TypeError` otherwise. -/
def pyIter : PyVal → Except Unit (List PyVal)
  | .list xs => .ok xs
  | .str s => .ok (s.data.map (fun c => .str ⟨[c]⟩))
  | .dict kvs => .ok (kvs.map (fun kv => .str kv.1))
  | _ => .error ()

/-- `str(v)` as used by f-strings; container and number rendering are
stand-ins, never inspected by any property proved here. -/
def pyStrOf : PyVal → String
  | .none => "None"
  | .bool b => if b then "True" else "False"
  | .num q => toString q
  | .str s => s
  | .list _ => "[...]"
  | .dict _ => "\x7b...\x7d"

/-! ### Market lookup and best-effort formatting -/

/-- The scan inside `_pick_market`: `m.get("key") == key` selects the first
match; a non-dict element raises. -/
def pick_market_go (key : String) : List PyVal → Except Unit PyVal
  | [] => .ok .none
  | m :: rest => do
    let k ← pyGet m "key" .none
    if (match k with | .str s => s == key | _ => false) then .ok m
    else pick_market_go key rest

/-- `_pick_market(markets, key)`; iterating a non-iterable raises. -/
def pick_market (markets : PyVal) (key : String) : Except Unit PyVal := do
  let items ← pyIter markets
  pick_market_go key items

/-- The h2h join body: `f"{o['name']}: {o['price']}"` over outcomes having
both keys, with Python's short-circuit `and`. -/
def fmt_h2h_items : List PyVal → Except Unit (List String)
  | [] => .ok []
  | o :: rest => do
    let hasName ← pyInStr "name" o
    if hasName then
      let hasPrice ← pyInStr "price" o
      if hasPrice then
        let n ← pyIndexStr "name" o
        let p ← pyIndexStr "price" o
        let tail ← fmt_h2h_items rest
        .ok ((pyStrOf n ++ ": " ++ pyStrOf p) :: tail)
      else fmt_h2h_items rest
    else fmt_h2h_items rest

def fmt_h2h_body (market : PyVal) : Except Unit String := do
  let outs ← pyGet market "outcomes" (.list [])
  let items ← pyIter outs
  let parts ← fmt_h2h_items items
  .ok (String.intercalate " / " parts)

/-- `_format_h2h`: the blanket `try/except Exception` maps any raised error
to the empty string. -/
def format_h2h (market : PyVal) : String :=
  match fmt_h2h_body market with
  | .ok s => s
  | .error _ => ""

/-- Spreads join body: `f"{o['name']}({o['point']}): {o['price']}"` over
outcomes having name, point and price. -/
def fmt_spreads_items : List PyVal → Except Unit (List String)
  | [] => .ok []
  | o :: rest => do
    let hasName ← pyInStr "name" o
    if hasName then
      let hasPoint ← pyInStr "point" o
      if hasPoint then
        let hasPrice ← pyInStr "price" o
        if hasPrice then
          let n ← pyIndexStr "name" o
          let pt ← pyIndexStr "point" o
          let p ← pyIndexStr "price" o
          let tail ← fmt_spreads_items rest
          .ok ((pyStrOf n ++ "(" ++ pyStrOf pt ++ "): " ++ pyStrOf p) :: tail)
        else fmt_spreads_items rest
      else fmt_spreads_items rest
    else fmt_spreads_items rest

def fmt_spreads_body (market : PyVal) : Except Unit String := do
  let outs ← pyGet market "outcomes" (.list [])
  let items ← pyIter outs
  let parts ← fmt_spreads_items items
  .ok (String.intercalate " / " parts)

def format_spreads (market : PyVal) : String :=
  match fmt_spreads_body market with
  | .ok s => s
  | .error _ => ""

/-- Totals join body: `f"{o['name']} {o['point']}: {o['price']}"`. -/
def fmt_totals_items : List PyVal → Except Unit (List String)
  | [] => .ok []
  | o :: rest => do
    let hasName ← pyInStr "name" o
    if hasName then
      let hasPoint ← pyInStr "point" o
      if hasPoint then
        let hasPrice ← pyInStr "price" o
        if hasPrice then
          let n ← pyIndexStr "name" o
          let pt ← pyIndexStr "point" o
          let p ← pyIndexStr "price" o
          let tail ← fmt_totals_items rest
          .ok ((pyStrOf n ++ " " ++ pyStrOf pt ++ ": " ++ pyStrOf p) :: tail)
        else fmt_totals_items rest
      else fmt_totals_items rest
    else fmt_totals_items rest

def fmt_totals_body (market : PyVal) : Except Unit String := do
  let outs ← pyGet market "outcomes" (.list [])
  let items ← pyIter outs
  let parts ← fmt_totals_items items
  .ok (String.intercalate " / " parts)

def format_totals (market : PyVal) : String :=
  match fmt_totals_body market with
  | .ok s => s
  | .error _ => ""

/-! ### The odds_table route -/

/-- `normalize_key` applied to a dynamic value: falsy input yields `""`
without touching the value; a truthy non-string raises (`.strip()` on a
non-string). -/
def normalize_key_py (key : PyVal) : Except Unit String :=
  if !pyTruthy key then .ok ""
  else match key with
    | .str s => .ok (normalize_key (some s))
    | _ => .error ()

structure MetaPy where
  key : PyVal
  name : PyVal
  url : Option String

/-- `get_bookmaker_meta` on the dynamic values the route feeds it:
`name = CANONICAL_NAME.get(nk) or title or (key or "")` with Python `or`
over dynamic values, `key = nk or (key or "")`, URL looked up by the
normalized key. -/
def get_bookmaker_meta_py (key title : PyVal) : Except Unit MetaPy := do
  let nk ← normalize_key_py key
  let canonical : PyVal := match CANONICAL_NAME.lookup nk with
    | some n => .str n
    | Option.none => .none
  .ok {
    key := pyOr (.str nk) (pyOr key (.str ""))
    name := pyOr canonical (pyOr title (pyOr key (.str "")))
    url := BOOKMAKER_URLS.lookup nk }

structure TableRow where
  bookmaker : PyVal
  bookmaker_url : Option String
  match_label : String
  start : PyVal
  h2h : String
  spreads : String
  totals : String

/-- One row of the per-event loop body (`routes_odds_table.py` lines
76–89). -/
def buildRow (label : String) (start : PyVal) (bm : PyVal) :
    Except Unit TableRow := do
  let keyV ← pyGet bm "key" .none
  let titleV ← pyGet bm "title" .none
  let meta ← get_bookmaker_meta_py keyV titleV
  let bmMarkets ← pyGet bm "markets" (.list [])
  let mh ← pick_market bmMarkets "h2h"
  let ms ← pick_market bmMarkets "spreads"
  let mt ← pick_market bmMarkets "totals"
  .ok {
    bookmaker := meta.name
    bookmaker_url := meta.url
    match_label := label
    start := start
    h2h := pyOrStr (format_h2h mh) ""
    spreads := pyOrStr (format_spreads ms) ""
    totals := pyOrStr (format_totals mt) "" }

/-- The per-event context: match label from the team names (`"?"` default),
start time, bookmaker list. -/
def evCtx (ev : PyVal) : Except Unit (String × PyVal × List PyVal) := do
  let homeV ← pyGet ev "home_team" (.str "?")
  let awayV ← pyGet ev "away_team" (.str "?")
  let startV ← pyGet ev "commence_time" (.str "")
  let bmsV ← pyGet ev "bookmakers" (.list [])
  let bms ← pyIter bmsV
  .ok (pyStrOf homeV ++ " vs " ++ pyStrOf awayV, startV, bms)

/-- The rows of one event in bookmaker input order (before sorting). -/
def eventRows (ev : PyVal) : Except Unit (List TableRow) := do
  let (label, start, bms) ← evCtx ev
  bms.mapM (buildRow label start)

/-- The sort key `(r["bookmaker"] or "").lower()`; `.lower()` on a
non-string display name raises. -/
def rowSortKey (r : TableRow) : Except Unit String :=
  match pyOr r.bookmaker (.str "") with
  | .str s => .ok (pyLower s)
  | _ => .error ()

structure MatchGroup where
  id : PyVal
  match_label : String
  start : PyVal
  rows : List TableRow

/-- The comparison on precomputed (sort key, row) pairs. -/
def pairLe (a b : String × TableRow) : Prop := a.1 ≤ b.1

instance : DecidableRel pairLe := fun a b => by
  unfold pairLe; infer_instance

instance : IsTotal (String × TableRow) pairLe := ⟨fun a b => le_total a.1 b.1⟩

instance : IsTrans (String × TableRow) pairLe :=
  ⟨fun _ _ _ hab hbc => le_trans (a := _) hab hbc⟩

/-- One entry of `matches`: the event's rows sorted by the precomputed sort
keys (CPython's `list.sort(key=...)` evaluates every key first, then runs a
stable sort; insertion sort on the key/row pairs models it). -/
def processEvent (ev : PyVal) : Except Unit MatchGroup := do
  let (label, start, _) ← evCtx ev
  let rows ← eventRows ev
  let keyed ← rows.mapM (fun r => (rowSortKey r).map (fun k => (k, r)))
  let idV ← pyGet ev "id" .none
  .ok {
    id := idV
    match_label := label
    start := start
    rows := (List.insertionSort pairLe keyed).map Prod.snd }

/-- The loop over the upstream event list. -/
def oddsTableMatches (events : PyVal) : Except Unit (List MatchGroup) := do
  let evs ← pyIter events
  evs.mapM processEvent

/-! ### JSON serialization of the response body
(`json.dumps` with compact separators, as `JSONResponse` emits). -/

def jsonEscChar (c : Char) : String :=
  if c = '"' then "\\\""
  else if c = '\\' then "\\\\"
  else if c = '\n' then "\\n"
  else if c = '\r' then "\\r"
  else if c = '\t' then "\\t"
  else if c = '\x08' then "\\b"
  else if c = '\x0c' then "\\f"
  else if c.toNat < 32 then
    "\\u00" ++ ⟨[(Nat.digitChar (c.toNat / 16)), (Nat.digitChar (c.toNat % 16))]⟩
  else ⟨[c]⟩

def jsonQuote (s : String) : String :=
  "\"" ++ String.join (s.data.map jsonEscChar) ++ "\""

mutual

def pyJsonDumps : PyVal → String
  | .none => "null"
  | .bool b => if b then "true" else "false"
  | .num q => toString q
  | .str s => jsonQuote s
  | .list xs => "[" ++ String.intercalate "," (pyJsonDumpsList xs) ++ "]"
  | .dict kvs => "\x7b" ++ String.intercalate "," (pyJsonDumpsPairs kvs) ++ "\x7d"

def pyJsonDumpsList : List PyVal → List String
  | [] => []
  | v :: vs => pyJsonDumps v :: pyJsonDumpsList vs

def pyJsonDumpsPairs : List (String × PyVal) → List String
  | [] => []
  | (k, v) :: kvs => (jsonQuote k ++ ":" ++ pyJsonDumps v) :: pyJsonDumpsPairs kvs

end

def rowToPy (r : TableRow) : PyVal :=
  .dict [
    ("bookmaker", r.bookmaker),
    ("bookmaker_url", match r.bookmaker_url with | some u => .str u | Option.none => .none),
    ("match", .str r.match_label),
    ("start", r.start),
    ("h2h", .str r.h2h),
    ("spreads", .str r.spreads),
    ("totals", .str r.totals)]

def groupToPy (g : MatchGroup) : PyVal :=
  .dict [
    ("id", g.id),
    ("match", .str g.match_label),
    ("start", g.start),
    ("rows", .list (g.rows.map rowToPy))]

def oddsTableColumns : List String :=
  ["bookmaker", "match", "h2h", "spreads", "totals", "start", "bookmaker_url"]

structure OddsTableResponse where
  status : Nat
  body : String

/-- The `odds_table` route on an upstream reply (status, raw text, parsed
JSON): a non-200 upstream status short-circuits into
`JSONResponse({"error": r.text}, status_code=r.status_code)`; otherwise the
table is built (an uncaught error inside the build is FastAPI's generic 500,
whose body text is immaterial here). -/
def odds_table (status : Nat) (text : String) (events : PyVal) :
    OddsTableResponse :=
  if status ≠ 200 then
    { status := status, body := pyJsonDumps (.dict [("error", .str text)]) }
  else
    match oddsTableMatches events with
    | .error _ => { status := 500, body := "Internal Server Error" }
    | .ok ms =>
      { status := 200
        body := pyJsonDumps (.dict [
          ("columns", .list (oddsTableColumns.map PyVal.str)),
          ("matches", .list (ms.map groupToPy))]) }

/-! ### C1: upstream error propagation -/

/-- C1 counterexample: for an upstream 401 with raw body `"Unauthorized"`
the status is propagated but the response body is the JSON wrapper
`{"error": "Unauthorized"}`, not the raw body verbatim. -/
theorem odds_table_verbatim_counterexample :
    (odds_table 401 "Unauthorized" (.list [])).status = 401 ∧
      (odds_table 401 "Unauthorized" (.list [])).body ≠ "Unauthorized" ∧
      (odds_table 401 "Unauthorized" (.list [])).body =
        "\x7b\"error\":\"Unauthorized\"\x7d" :=
  ⟨rfl, by decide, rfl⟩

/-- C1 (amended): for every non-200 upstream status the route responds with
the upstream status code unchanged, and with the raw upstream body wrapped
as the JSON object `{"error": <raw text>}` rather than passed verbatim. -/
theorem odds_table_error_passthrough (status : Nat) (text : String) (events : PyVal)
    (h : status ≠ 200) :
    (odds_table status text events).status = status ∧
      (odds_table status text events).body =
        "\x7b\"error\":" ++ jsonQuote text ++ "\x7d" := by
  constructor
  · simp [odds_table, h]
  · have hbody : (odds_table status text events).body =
        pyJsonDumps (.dict [("error", .str text)]) := by
      simp [odds_table, h]
    rw [hbody]
    show "\x7b" ++ String.intercalate ","
        [jsonQuote "error" ++ ":" ++ pyJsonDumps (.str text)] ++ "\x7d" = _
    show "\x7b" ++ (jsonQuote "error" ++ ":" ++ jsonQuote text) ++ "\x7d" = _
    rw [show (jsonQuote "error" ++ ":" ++ jsonQuote text : String) =
      ("\"error\":" ++ jsonQuote text : String) from by
        rw [show (jsonQuote "error" : String) = "\"error\"" from rfl,
          String.append_assoc]
        rfl]
    rw [← String.append_assoc]
    rfl

/-- Witness for C1's amended theorem at the 401 example. -/
theorem odds_table_error_passthrough_witness :
    (odds_table 401 "Unauthorized" (.list [])).status = 401 ∧
      (odds_table 401 "Unauthorized" (.list [])).body =
        "\x7b\"error\":" ++ jsonQuote "Unauthorized" ++ "\x7d" :=
  odds_table_error_passthrough 401 "Unauthorized" (.list []) (by decide)

/-! ### C9: formatting is total and best-effort per bookmaker -/

theorem pick_market_go_ok (key : String) :
    ∀ ms : List PyVal, (∀ m ∈ ms, m.isDict = true) →
      ∃ v, pick_market_go key ms = .ok v := by
  intro ms
  induction ms with
  | nil => intro _; exact ⟨.none, rfl⟩
  | cons m rest ih =>
    intro hall
    have hm := hall m (by simp)
    match m, hm with
    | .dict kvs, _ =>
      simp only [pick_market_go, pyGet, Bind.bind, Except.bind]
      split
      · exact ⟨_, rfl⟩
      · exact ih (fun x hx => hall x (by simp [hx]))

/-- C9 counterexample: one bookmaker's bad market data CAN fail the whole
request — a `markets` value that is not iterable raises in `_pick_market`,
which runs outside every `try` block, so the row is never built and the
route answers 500 instead of degrading that bookmaker's columns to `""`. -/
theorem format_functions_safe_counterexample :
    buildRow "M" (.str "") (.dict [("key", .str "tab"), ("markets", .num 3)]) =
        .error () ∧
      (odds_table 200 "" (.list [.dict [("home_team", .str "H"),
        ("bookmakers", .list [.dict [("key", .str "tab"),
          ("markets", .num 3)]])]])).status = 500 :=
  ⟨rfl, rfl⟩

/-- C9 (amended): each market formatting function is a total `String`-valued
function (the blanket `except` catches every raised error), yielding `""`
for an absent (`None`) or non-dict market; and a bookmaker row is always
built successfully — bad market data never failing the request — provided
the bookmaker's `markets` value is a list of dicts (and its `key` a string
or absent): market garbage outside that shape raises in `_pick_market`,
outside the `try` blocks, and fails the whole request. -/
theorem format_functions_safe :
    (∀ m : PyVal, (m = .none ∨ m.isDict = false) →
      format_h2h m = "" ∧ format_spreads m = "" ∧ format_totals m = "") ∧
    (∀ (label : String) (start : PyVal) (kvs : List (String × PyVal))
        (ms : List PyVal),
      ((kvs.lookup "key").getD .none = .none ∨
        ∃ s, (kvs.lookup "key").getD .none = .str s) →
      (kvs.lookup "markets").getD (.list []) = .list ms →
      (∀ m ∈ ms, m.isDict = true) →
      ∃ row, buildRow label start (.dict kvs) = .ok row) := by
  constructor
  · intro m hm
    have hbody : ∀ d, pyGet m "outcomes" d = .error () := by
      intro d
      rcases hm with rfl | hm
      · rfl
      · cases m <;> simp_all [pyGet, PyVal.isDict]
    refine ⟨?_, ?_, ?_⟩ <;>
      simp [format_h2h, format_spreads, format_totals, fmt_h2h_body,
        fmt_spreads_body, fmt_totals_body, hbody, Bind.bind, Except.bind]
  · intro label start kvs ms hkey hms hall
    have hnorm : ∀ v : PyVal, (v = .none ∨ ∃ s, v = .str s) →
        ∃ nk, normalize_key_py v = .ok nk := by
      rintro v (rfl | ⟨s, rfl⟩)
      · exact ⟨"", rfl⟩
      · by_cases hs : s = ""
        · subst hs; exact ⟨"", rfl⟩
        · exact ⟨normalize_key (some s), by simp [normalize_key_py, pyTruthy, hs]⟩
    obtain ⟨nk, hnk⟩ := hnorm _ hkey
    obtain ⟨vh, hvh⟩ := pick_market_go_ok "h2h" ms hall
    obtain ⟨vs, hvs⟩ := pick_market_go_ok "spreads" ms hall
    obtain ⟨vt, hvt⟩ := pick_market_go_ok "totals" ms hall
    simp only [buildRow, pyGet, hms, pick_market, pyIter, get_bookmaker_meta_py,
      hnk, hvh, hvs, hvt, Bind.bind, Except.bind]
    exact ⟨_, rfl⟩

/-- Witness for C9: a `None` market formats to `""`, and a bookmaker whose
h2h market carries a non-list `outcomes` still yields a row. -/
theorem format_functions_safe_witness :
    (format_h2h PyVal.none = "" ∧ format_spreads PyVal.none = "" ∧
      format_totals PyVal.none = "") ∧
    ∃ row, buildRow "M" (.str "") (.dict [("key", .str "tab"),
        ("markets", .list [PyVal.dict [("key", .str "h2h"),
          ("outcomes", .num 3)]])]) = .ok row :=
  ⟨format_functions_safe.1 PyVal.none (Or.inl rfl),
    format_functions_safe.2 "M" (.str "") _ _ (Or.inr ⟨"tab", rfl⟩) rfl
      (by intro m hm; simp at hm; subst hm; rfl)⟩

/-! ### C8: per-event rows are stably sorted by lowercased display name -/

instance : DecidableEq (Except Unit String) := fun a b =>
  match a, b with
  | .error e1, .error e2 => isTrue (by cases e1; cases e2; rfl)
  | .error _, .ok _ => isFalse (by simp)
  | .ok _, .error _ => isFalse (by simp)
  | .ok s1, .ok s2 =>
    if h : s1 = s2 then isTrue (by rw [h]) else isFalse (by simp [h])

theorem ebind_ok {α β : Type} (v : α) (f : α → Except Unit β) :
    (Except.ok v >>= f) = f v := rfl

theorem ebind_err {α β : Type} (e : Unit) (f : α → Except Unit β) :
    ((Except.error e : Except Unit α) >>= f) = .error e := rfl

theorem exceptMapM_ok_mem {α β : Type} (f : α → Except Unit β) :
    ∀ (l : List α) (out : List β), l.mapM f = .ok out →
      ∀ b ∈ out, ∃ a ∈ l, f a = .ok b := by
  intro l
  induction l with
  | nil =>
    intro out h b hb
    simp only [List.mapM_nil] at h
    have hout : out = [] := by simpa [pure, Except.pure] using h.symm
    subst hout
    simp at hb
  | cons a l ih =>
    intro out h b hb
    rw [List.mapM_cons] at h
    cases hfa : f a with
    | error e => rw [hfa] at h; simp [Bind.bind, Except.bind] at h
    | ok v =>
      rw [hfa] at h
      cases hml : l.mapM f with
      | error e => rw [hml] at h; simp [Bind.bind, Except.bind] at h
      | ok vs =>
        rw [hml] at h
        simp only [Bind.bind, Except.bind, pure, Except.pure, Except.ok.injEq] at h
        subst h
        rcases List.mem_cons.mp hb with rfl | hb2
        · exact ⟨a, by simp, hfa⟩
        · obtain ⟨x, hx, hfx⟩ := ih vs hml b hb2
          exact ⟨x, by simp [hx], hfx⟩

theorem mapM_sortKey_spec :
    ∀ (rows : List TableRow) (keyed : List (String × TableRow)),
      rows.mapM (fun r => (rowSortKey r).map (fun k => (k, r))) = .ok keyed →
      keyed.map Prod.snd = rows ∧ ∀ kr ∈ keyed, rowSortKey kr.2 = .ok kr.1 := by
  intro rows
  induction rows with
  | nil =>
    intro keyed h
    simp only [List.mapM_nil] at h
    have hk : keyed = [] := by simpa [pure, Except.pure] using h.symm
    subst hk
    exact ⟨rfl, by simp⟩
  | cons r rows ih =>
    intro keyed h
    rw [List.mapM_cons] at h
    cases hk : rowSortKey r with
    | error e => rw [hk] at h; simp [Except.map, Bind.bind, Except.bind] at h
    | ok k =>
      rw [hk] at h
      cases hml : rows.mapM (fun r => (rowSortKey r).map (fun k => (k, r))) with
      | error e =>
        rw [hml] at h
        simp [Except.map, Bind.bind, Except.bind] at h
      | ok vs =>
        rw [hml] at h
        simp only [Except.map, Bind.bind, Except.bind, pure, Except.pure,
          Except.ok.injEq] at h
        subst h
        obtain ⟨h1, h2⟩ := ih vs hml
        refine ⟨by simp [h1], ?_⟩
        intro kr hkr
        rcases List.mem_cons.mp hkr with rfl | h3
        · simpa using hk
        · exact h2 kr h3

theorem orderedInsert_filter_key (k : String) (a : String × TableRow) :
    ∀ l : List (String × TableRow),
      (List.orderedInsert pairLe a l).filter (fun kr => kr.1 == k) =
        if a.1 == k then a :: l.filter (fun kr => kr.1 == k)
        else l.filter (fun kr => kr.1 == k) := by
  intro l
  induction l with
  | nil =>
    by_cases hak : (a.1 == k) = true <;>
      simp [List.orderedInsert, List.filter, hak]
  | cons b l ih =>
    simp only [List.orderedInsert]
    by_cases hab : pairLe a b
    · rw [if_pos hab]
      by_cases hak : (a.1 == k) = true <;> simp [List.filter_cons, hak]
    · rw [if_neg hab]
      by_cases hak : (a.1 == k) = true
      · have hbk : (b.1 == k) = false := by
          have ha : a.1 = k := by simpa using hak
          have hlt : b.1 < a.1 := lt_of_not_le hab
          simp only [beq_eq_false_iff_ne, ne_eq]
          intro hbe
          rw [← ha] at hbe
          exact absurd hbe (ne_of_lt hlt)
        simp [List.filter_cons, hbk, ih, hak]
      · simp [List.filter_cons, ih, hak]

theorem insertionSort_filter_key (k : String) :
    ∀ l : List (String × TableRow),
      (List.insertionSort pairLe l).filter (fun kr => kr.1 == k) =
        l.filter (fun kr => kr.1 == k) := by
  intro l
  induction l with
  | nil => rfl
  | cons a l ih =>
    simp only [List.insertionSort]
    rw [orderedInsert_filter_key]
    by_cases hak : (a.1 == k) = true <;> simp [List.filter_cons, hak, ih]

theorem decide_ok_eq (a b : String) :
    decide (Except.ok (ε := Unit) a = Except.ok b) = (a == b) := by
  by_cases h : a = b <;> simp [h]

/-- C8: every group in the odds_table output comes from one parsed event;
its rows carry string sort keys (lowercased display names, absent name as
`""` via `rowSortKey`), are pairwise ordered by those keys, and for every
key value the rows with that key appear in exactly their bookmaker input
order (stability). -/
theorem odds_table_rows_sorted_stable :
    (∀ (events : PyVal) (gs : List MatchGroup), oddsTableMatches events = .ok gs →
      ∀ g ∈ gs, ∃ ev, processEvent ev = .ok g) ∧
    (∀ (ev : PyVal) (g : MatchGroup) (rows : List TableRow),
      processEvent ev = .ok g → eventRows ev = .ok rows →
      (∀ r ∈ g.rows, ∃ k, rowSortKey r = .ok k) ∧
      List.Pairwise (fun a b => ∀ ka kb, rowSortKey a = .ok ka →
        rowSortKey b = .ok kb → ka ≤ kb) g.rows ∧
      (∀ k : String, g.rows.filter (fun r => decide (rowSortKey r = .ok k)) =
        rows.filter (fun r => decide (rowSortKey r = .ok k)))) := by
  constructor
  · intro events gs hev g hg
    unfold oddsTableMatches at hev
    cases hpi : pyIter events with
    | error e =>
      simp only [hpi, ebind_err] at hev
      exact absurd hev (by simp)
    | ok evs =>
      simp only [hpi, ebind_ok] at hev
      obtain ⟨ev, -, hpe⟩ := exceptMapM_ok_mem _ evs gs hev g hg
      exact ⟨ev, hpe⟩
  · intro ev g rows hpe hrows
    unfold processEvent at hpe
    cases hcx : evCtx ev with
    | error e =>
      simp only [hcx, ebind_err] at hpe
      exact absurd hpe (by simp)
    | ok ctx =>
      simp only [hcx, ebind_ok, hrows] at hpe
      cases hkd : rows.mapM (fun r => (rowSortKey r).map (fun k => (k, r))) with
      | error e =>
        simp only [hkd, ebind_err] at hpe
        exact absurd hpe (by simp)
      | ok keyed =>
        simp only [hkd, ebind_ok] at hpe
        cases hid : pyGet ev "id" .none with
        | error e =>
          simp only [hid, ebind_err] at hpe
          exact absurd hpe (by simp)
        | ok idV =>
          simp only [hid, ebind_ok, Except.ok.injEq] at hpe
          subst hpe
          obtain ⟨hmap, hkeys⟩ := mapM_sortKey_spec rows keyed hkd
          have hmemkeys : ∀ kr ∈ List.insertionSort pairLe keyed,
              rowSortKey kr.2 = .ok kr.1 := by
            intro kr hkr
            exact hkeys kr ((List.mem_insertionSort pairLe).mp hkr)
          refine ⟨?_, ?_, ?_⟩
          · intro r hr
            obtain ⟨kr, hkr, rfl⟩ := List.mem_map.mp hr
            exact ⟨kr.1, hmemkeys kr hkr⟩
          · have hsorted : List.Pairwise pairLe (List.insertionSort pairLe keyed) :=
              List.sorted_insertionSort pairLe keyed
            have hsorted2 : List.Pairwise
                (fun x y : String × TableRow => ∀ ka kb, rowSortKey x.2 = .ok ka →
                  rowSortKey y.2 = .ok kb → ka ≤ kb)
                (List.insertionSort pairLe keyed) := by
              refine List.Pairwise.imp_of_mem ?_ hsorted
              intro x y hx hy hle ka kb hka hkb
              have hxk := hmemkeys x hx
              have hyk := hmemkeys y hy
              rw [hxk] at hka
              rw [hyk] at hkb
              obtain rfl := Except.ok.inj hka
              obtain rfl := Except.ok.inj hkb
              exact hle
            exact (List.pairwise_map).mpr hsorted2
          · intro k
            have e1 : ((List.insertionSort pairLe keyed).map Prod.snd).filter
                  (fun r => decide (rowSortKey r = .ok k)) =
                ((List.insertionSort pairLe keyed).filter
                  (fun kr => decide (rowSortKey kr.2 = .ok k))).map Prod.snd := by
              rw [List.filter_map]
              rfl
            have e2 : (List.insertionSort pairLe keyed).filter
                  (fun kr => decide (rowSortKey kr.2 = .ok k)) =
                (List.insertionSort pairLe keyed).filter (fun kr => kr.1 == k) := by
              refine List.filter_congr ?_
              intro kr hkr
              rw [hmemkeys kr hkr, decide_ok_eq]
            have e3 : keyed.filter (fun kr => kr.1 == k) =
                keyed.filter (fun kr => decide (rowSortKey kr.2 = .ok k)) := by
              refine List.filter_congr ?_
              intro kr hkr
              rw [hkeys kr hkr, decide_ok_eq]
            have e4 : (keyed.filter (fun kr => decide (rowSortKey kr.2 = .ok k))).map
                  Prod.snd =
                (keyed.map Prod.snd).filter (fun r => decide (rowSortKey r = .ok k)) := by
              rw [List.filter_map]
              rfl
            rw [e1, e2, insertionSort_filter_key, e3, e4, hmap]

/-- A concrete upstream event with a single bookmaker, for the witness. -/
def exEv : PyVal :=
  .dict [("home_team", .str "H"), ("away_team", .str "A"),
    ("commence_time", .str "T"), ("id", .str "e1"),
    ("bookmakers", .list [.dict [("key", .str "tab")]])]

def exTabRow : TableRow :=
  { bookmaker := .str "TAB", bookmaker_url := some "https://www.tab.com.au/",
    match_label := "H vs A", start := .str "T", h2h := "", spreads := "",
    totals := "" }

def exGroup : MatchGroup :=
  { id := .str "e1", match_label := "H vs A", start := .str "T",
    rows := [exTabRow] }

/-- Witness for C8 at the one-bookmaker event: filtering by the sort key
`"tab"` agrees between output rows and input-order rows. -/
theorem odds_table_rows_sorted_stable_witness :
    exGroup.rows.filter (fun r => decide (rowSortKey r = .ok "tab")) =
      [exTabRow].filter (fun r => decide (rowSortKey r = .ok "tab")) :=
  (odds_table_rows_sorted_stable.2 exEv exGroup [exTabRow] rfl rfl).2.2 "tab"

end GambleDash
